import Mathlib

/-!
Shallow embedding of `filters/complex.py` (`FilterRepeater`, `FilterMapper`)
and the small slice of the external base-filter contract they consume.

Python values that can appear as mapping keys are embedded as `Key`;
general Python values as `Value`.  A Python `dict` / `OrderedDict` is
embedded as an ordered association list `List (Key × Value)`; a Python
`list` as `List Value`.  Filter chains are external collaborators of this
core (the spec treats the base filter abstraction and the leaf filters as
out of scope), so a normalized chain is embedded as a pure transformation
`Value → Value`; the errors stated about below are exactly the errors the
Repeater / Mapper machinery itself records.
-/

set_option autoImplicit false

namespace Filters

/-- A Python value usable as a mapping key.  `unhash r` stands for a key
object that is not hashable (its field is its debug/repr string): Python
raises `TypeError` when such a key is tested for set membership. -/
inductive Key where
  | none
  | int (n : Int)
  | str (s : String)
  | unhash (r : String)
  deriving DecidableEq

/-- Whether a key can be hashed, i.e. whether `key in some_set` evaluates
without raising `TypeError`. -/
def Key.hashable : Key → Bool
  | .unhash _ => false
  | _ => true

/-- Set membership for hashable keys (Python `k in s` on a `set`). -/
def Key.mem (k : Key) (s : List Key) : Bool :=
  s.any (fun x => decide (x = k))

/-- A Python value, as far as this core observes it.  `invalid` is the
invalid-value placeholder returned by the external error-recording helper
(spec: the stand-in emitted for a rejected value when the output slot
cannot be omitted). -/
inductive Value where
  | none
  | int (n : Int)
  | str (s : String)
  | sequence (elems : List Value)
  | mapping (entries : List (Key × Value))
  | invalid

/-- Error reason codes recorded by this core: the external `Type` check
failure (`TYPE_MISMATCH`), `CODE_EXTRA_KEY = 'unexpected'` and
`CODE_MISSING_KEY = 'missing'`. -/
inductive Reason where
  | wrongType
  | unexpected
  | missing
  deriving DecidableEq

/-- One recorded error: reason code, offending value, and the sub-key
path segment it was tagged with (`Option.none` = current path, used by
the top-level type check). -/
structure RecordedError where
  reason : Reason
  value : Value
  subKey : Option Key

/-- Number of recorded errors with the given reason and sub-key tag. -/
def countErr (errs : List RecordedError) (r : Reason) (sk : Option Key) : Nat :=
  errs.countP (fun e => decide (e.reason = r ∧ e.subKey = sk))

/-- Lookup in an ordered association list (Python `value[key]`, first
matching entry; Python dict keys are distinct so at most one matches). -/
def lookupKey : List (Key × Value) → Key → Option Value
  | [], _ => Option.none
  | (k, v) :: rest, q => if k = q then some v else lookupKey rest q

/-- Embedding of `FilterRepeater.unicodify_key` / `FilterMapper.unicodify_key`:
`None` renders as the literal `"None"`; other keys go through the
external `Unicode` coercion (decimal rendering for ints, identity for
strings), falling back to the debug/repr string when that coercion
raises `FilterError` — for an `unhash r` key the rendered form is `r`
(the `Unicode`-or-repr rendering of the underlying object). -/
def unicodify_key : Key → String
  | Key.none => "None"
  | Key.int n => toString n
  | Key.str s => s
  | Key.unhash r => r

/-- Shape test for the top-level `Type(Iterable)` check of
`FilterRepeater._apply` (Python strings are iterable). -/
def isIterable : Value → Bool
  | .mapping _ => true
  | .sequence _ => true
  | .str _ => true
  | _ => false

/-- Shape test for the top-level `Type(Mapping)` check of
`FilterMapper._apply`. -/
def isMappingValue : Value → Bool
  | .mapping _ => true
  | _ => false

/-- The elements a Python `str` yields when iterated: its characters,
each a one-character string. -/
def strElems (s : String) : List Value :=
  s.toList.map (fun c => Value.str (String.singleton c))

/-- A `FilterRepeater`: a normalized filter chain applied to every element,
plus the optional key/index restriction set (`Option.none` = allow any
key/index; `some s` = only members of `s` are allowed, so `some []`
rejects everything). -/
structure FilterRepeater where
  filter_chain : Value → Value
  restrict_keys : Option (List Key)

namespace FilterRepeater

/-- The restriction test of `FilterRepeater.iter`:
`(self.restrict_keys is None) or (k in self.restrict_keys)`. -/
def admits (r : FilterRepeater) (k : Key) : Bool :=
  match r.restrict_keys with
  | Option.none => true
  | some s => Key.mem k s

/-- The restriction test for a sequence index `i` (Python tests the int
`i` against the restriction set). -/
def seqAdmits (r : FilterRepeater) (i : Nat) : Bool :=
  r.admits (Key.int (Int.ofNat i))

/-- The mapping branch of `FilterRepeater.iter`: admitted keys keep their
original key object and get the chain applied to their value; rejected
keys yield nothing and record one `unexpected` error tagged with the
stringified key. -/
def iterMapping (r : FilterRepeater) : List (Key × Value) → List (Key × Value) × List RecordedError
  | [] => ([], [])
  | (k, v) :: rest =>
    let tail := r.iterMapping rest
    if r.admits k then
      ((k, r.filter_chain v) :: tail.1, tail.2)
    else
      (tail.1, ⟨Reason.unexpected, v, some (Key.str (unicodify_key k))⟩ :: tail.2)

/-- The sequence branch of `FilterRepeater.iter`, with `i` the index of
the first element: admitted indices yield the chain result; rejected
indices yield the invalid-value placeholder (the slot cannot vanish) and
record one `unexpected` error tagged with the stringified index. -/
def iterSeqFrom (r : FilterRepeater) : Nat → List Value → List Value × List RecordedError
  | _, [] => ([], [])
  | i, v :: rest =>
    let tail := r.iterSeqFrom (i + 1) rest
    if r.seqAdmits i then
      (r.filter_chain v :: tail.1, tail.2)
    else
      (Value.invalid :: tail.1,
        ⟨Reason.unexpected, v, some (Key.str (unicodify_key (Key.int (Int.ofNat i))))⟩ :: tail.2)

/-- Embedding of `FilterRepeater._apply` on a non-null value: the `Type(Iterable)`
check fails on non-iterable input with one `TYPE_MISMATCH` error against
the current path and a null result; otherwise the result container
mirrors the input shape (`OrderedDict` for mappings, `list` otherwise)
and is filled from `iter`. -/
def applyCore (r : FilterRepeater) (v : Value) : Value × List RecordedError :=
  match v with
  | Value.mapping entries =>
    let out := r.iterMapping entries
    (Value.mapping out.1, out.2)
  | Value.sequence elems =>
    let out := r.iterSeqFrom 0 elems
    (Value.sequence out.1, out.2)
  | Value.str s =>
    let out := r.iterSeqFrom 0 (strElems s)
    (Value.sequence out.1, out.2)
  | other => (Value.none, [⟨Reason.wrongType, other, Option.none⟩])

/-- The public application of a `FilterRepeater`.  The null branch is
modelled from the spec: the external base filter contract treats a
user-supplied null as a successful null (it never reaches `_apply`,
which only sees non-null values), so a null input passes through with no
error recorded. -/
def apply (r : FilterRepeater) (v : Value) : Value × List RecordedError :=
  match v with
  | Value.none => (Value.none, [])
  | other => r.applyCore other

end FilterRepeater

/-- A missing-key / extra-key policy, as stored after the constructor's
normalization (`set(x) if isinstance(x, Iterable) else bool(x)`): either
a boolean or a set of keys. -/
inductive Policy where
  | bool (b : Bool)
  | keys (s : List Key)
  deriving DecidableEq

/-- Python `key in policy`: raises `TypeError` (`Except.error`) when the
policy is a boolean (booleans are not iterable) or when the tested key is
unhashable; otherwise answers set membership. -/
def Policy.memTry : Policy → Key → Except Unit Bool
  | .bool _, _ => Except.error ()
  | .keys s, k => if k.hashable then Except.ok (Key.mem k s) else Except.error ()

/-- A `FilterMapper`: the ordered schema (key → normalized chain, declared
order significant) and the two key policies.  A normalized chain may be
the identity (the Python `None` chain, which makes a key "required"
without transforming it). -/
structure FilterMapper where
  filters : List (Key × (Value → Value))
  allow_missing_keys : Policy
  allow_extra_keys : Policy

namespace FilterMapper

/-- The schema keys, in declared order. -/
def schemaKeys (m : FilterMapper) : List Key :=
  m.filters.map Prod.fst

/-- Embedding of `FilterMapper._missing_key_allowed`: `True` allows everything;
otherwise Python evaluates `key in self.allow_missing_keys`, and a
`TypeError` (boolean policy, or unhashable key) degrades to "not
allowed". -/
def missing_key_allowed (m : FilterMapper) (k : Key) : Bool :=
  if m.allow_missing_keys = Policy.bool true then true
  else
    match m.allow_missing_keys.memTry k with
    | Except.ok b => b
    | Except.error _ => false

/-- Embedding of `FilterMapper._extra_key_allowed`, same shape as
`missing_key_allowed` but for the extra-key policy. -/
def extra_key_allowed (m : FilterMapper) (k : Key) : Bool :=
  if m.allow_extra_keys = Policy.bool true then true
  else
    match m.allow_extra_keys.memTry k with
    | Except.ok b => b
    | Except.error _ => false

/-- Phase 1 of `FilterMapper.iter` for one schema entry: present keys get
the chain; absent-but-allowed keys get the chain applied to null; absent
disallowed keys yield the invalid-value placeholder and record one
`missing` error tagged with the key object itself (`sub_key = key`,
with recorded offending value `None`). -/
def processKey (m : FilterMapper) (input : List (Key × Value)) (key : Key)
    (chain : Value → Value) : (Key × Value) × List RecordedError :=
  match lookupKey input key with
  | some v => ((key, chain v), [])
  | Option.none =>
    if m.missing_key_allowed key then
      ((key, chain Value.none), [])
    else
      ((key, Value.invalid), [⟨Reason.missing, Value.none, some key⟩])

/-- Phase 1 of `FilterMapper.iter`: each schema entry, in declared order,
yields exactly one output pair (and possibly one error). -/
def iterDeclared (m : FilterMapper) (input : List (Key × Value)) :
    List (Key × (Value → Value)) → List (Key × Value) × List RecordedError
  | [] => ([], [])
  | (key, chain) :: rest =>
    let head := m.processKey input key chain
    let tail := m.iterDeclared input rest
    (head.1 :: tail.1, head.2 ++ tail.2)

/-- The extra keys of the input: present in the input but not declared in
the schema.  The source iterates the set difference
`set(value) - set(self._filters)` in unspecified (but per-run stable) set
order; the embedding fixes the input's own order as that enumeration. -/
def extraKeys (m : FilterMapper) (input : List (Key × Value)) : List Key :=
  (input.map Prod.fst).filter (fun k => ! Key.mem k m.schemaKeys)

/-- Phase 2 of `FilterMapper.iter` over a list of extra keys: allowed
extras pass their input value through unchanged; rejected extras yield
nothing and record one `unexpected` error tagged with the stringified
key. -/
def iterExtra (m : FilterMapper) (input : List (Key × Value)) :
    List Key → List (Key × Value) × List RecordedError
  | [] => ([], [])
  | k :: rest =>
    let tail := m.iterExtra input rest
    if m.extra_key_allowed k then
      ((k, (lookupKey input k).getD Value.none) :: tail.1, tail.2)
    else
      (tail.1,
        ⟨Reason.unexpected, (lookupKey input k).getD Value.none,
          some (Key.str (unicodify_key k))⟩ :: tail.2)

/-- Embedding of `FilterMapper.iter` on a mapping-shaped input: filtered (declared)
values first, extra values last. -/
def iter (m : FilterMapper) (input : List (Key × Value)) :
    List (Key × Value) × List RecordedError :=
  let d := m.iterDeclared input m.filters
  let e := m.iterExtra input (m.extraKeys input)
  (d.1 ++ e.1, d.2 ++ e.2)

/-- Embedding of `FilterMapper._apply` on a non-null value: the `Type(Mapping)` check
fails on non-mapping input with one `TYPE_MISMATCH` error against the
current path and a null result; otherwise the `OrderedDict` result is
built from `iter`. -/
def applyCore (m : FilterMapper) (v : Value) : Value × List RecordedError :=
  match v with
  | Value.mapping entries =>
    let out := m.iter entries
    (Value.mapping out.1, out.2)
  | other => (Value.none, [⟨Reason.wrongType, other, Option.none⟩])

/-- The public application of a `FilterMapper`.  The null branch is
modelled from the spec exactly as for `FilterRepeater.apply`: the base
filter contract passes a user-supplied null through as a successful null
without invoking `_apply`. -/
def apply (m : FilterMapper) (v : Value) : Value × List RecordedError :=
  match v with
  | Value.none => (Value.none, [])
  | other => m.applyCore other

end FilterMapper

/-- The identity filter chain: the normalized form of the Python `None`
chain, which transforms nothing (used by the spec's concrete examples). -/
def idChain : Value → Value := fun v => v

/-- Spec example: schema `{a: <identity>}`, missing keys disallowed,
extra keys allowed. -/
def mapperMissingDisallow : FilterMapper :=
  ⟨[(Key.str "a", idChain)], Policy.bool false, Policy.bool true⟩

/-- Spec example: schema `{a: <identity>}`, missing keys allowed,
extra keys allowed. -/
def mapperMissingAllow : FilterMapper :=
  ⟨[(Key.str "a", idChain)], Policy.bool true, Policy.bool true⟩

/-- Spec example: schema `{a: <identity>}`, missing keys allowed,
extra keys disallowed. -/
def mapperExtraDisallow : FilterMapper :=
  ⟨[(Key.str "a", idChain)], Policy.bool true, Policy.bool false⟩

/-- A mapper with no schema and both policies given as explicit key
sets (used to exercise the unhashable-key degradation). -/
def mapperSetPolicies : FilterMapper :=
  ⟨[], Policy.keys [Key.str "a"], Policy.keys [Key.str "a"]⟩

/-- A mapper whose schema declares the integer key `2` with missing keys
disallowed (used to exercise the missing-error path tag). -/
def mapperIntSchema : FilterMapper :=
  ⟨[(Key.int 2, idChain)], Policy.bool false, Policy.bool true⟩

/-- A mapper with an empty schema and extra keys disallowed (used to
exercise the unexpected-error path tag). -/
def mapperNoExtra : FilterMapper :=
  ⟨[], Policy.bool true, Policy.bool false⟩

/-- An unrestricted repeater around the identity chain. -/
def repeaterPlain : FilterRepeater := ⟨idChain, Option.none⟩

/-- Spec example: a repeater restricted to index/key `0` only. -/
def repeaterRestrict0 : FilterRepeater := ⟨idChain, some [Key.int 0]⟩

/-- A repeater with an empty restriction set ("restrict to nothing"). -/
def repeaterRestrictEmpty : FilterRepeater := ⟨idChain, some []⟩

/-- Spec example input `{a: 1, b: 2}`. -/
def inputAB : List (Key × Value) :=
  [(Key.str "a", Value.int 1), (Key.str "b", Value.int 2)]

/-! ### Helper lemmas about the embedded operations -/

theorem lookupKey_append (xs ys : List (Key × Value)) (k : Key) :
    lookupKey (xs ++ ys) k =
      match lookupKey xs k with
      | some v => some v
      | Option.none => lookupKey ys k := by
  induction xs with
  | nil => rfl
  | cons p rest ih =>
    obtain ⟨a, b⟩ := p
    by_cases h : a = k
    · simp [lookupKey, h]
    · simp only [List.cons_append, lookupKey, if_neg h]
      exact ih

theorem lookupKey_eq_none (xs : List (Key × Value)) (k : Key) :
    lookupKey xs k = Option.none ↔ k ∉ xs.map Prod.fst := by
  induction xs with
  | nil => simp [lookupKey]
  | cons p rest ih =>
    obtain ⟨a, b⟩ := p
    by_cases h : a = k
    · subst h
      simp [lookupKey]
    · simp only [lookupKey, if_neg h, List.map_cons, List.mem_cons, ih]
      constructor
      · rintro hn (rfl | hm)
        · exact h rfl
        · exact hn hm
      · intro hn hm
        exact hn (Or.inr hm)

theorem lookupKey_isSome_of_mem (xs : List (Key × Value)) (k : Key)
    (h : k ∈ xs.map Prod.fst) : ∃ v, lookupKey xs k = some v := by
  cases hx : lookupKey xs k with
  | none => exact absurd ((lookupKey_eq_none xs k).mp hx) (by simpa using h)
  | some v => exact ⟨v, rfl⟩

theorem countErr_nil (r : Reason) (sk : Option Key) : countErr [] r sk = 0 := rfl

theorem countErr_append (a b : List RecordedError) (r : Reason) (sk : Option Key) :
    countErr (a ++ b) r sk = countErr a r sk + countErr b r sk :=
  List.countP_append _ a b

theorem countErr_cons (e : RecordedError) (es : List RecordedError)
    (r : Reason) (sk : Option Key) :
    countErr (e :: es) r sk =
      countErr es r sk + if e.reason = r ∧ e.subKey = sk then 1 else 0 := by
  simp only [countErr, List.countP_cons]
  by_cases h : e.reason = r ∧ e.subKey = sk <;> simp [h]

namespace FilterRepeater

theorem iterMapping_fst (r : FilterRepeater) (entries : List (Key × Value)) :
    (r.iterMapping entries).1 =
      entries.filterMap (fun p =>
        if r.admits p.1 then some (p.1, r.filter_chain p.2) else Option.none) := by
  induction entries with
  | nil => rfl
  | cons p rest ih =>
    obtain ⟨k, v⟩ := p
    by_cases h : r.admits k <;>
      simp [iterMapping, h, ih, List.filterMap_cons]

theorem iterMapping_snd (r : FilterRepeater) (entries : List (Key × Value)) :
    (r.iterMapping entries).2 =
      entries.filterMap (fun p =>
        if r.admits p.1 then Option.none
        else some ⟨Reason.unexpected, p.2, some (Key.str (unicodify_key p.1))⟩) := by
  induction entries with
  | nil => rfl
  | cons p rest ih =>
    obtain ⟨k, v⟩ := p
    by_cases h : r.admits k <;>
      simp [iterMapping, h, ih, List.filterMap_cons]

theorem iterSeqFrom_fst (r : FilterRepeater) (n : Nat) (elems : List Value) :
    (r.iterSeqFrom n elems).1 =
      (List.enumFrom n elems).map (fun p =>
        if r.seqAdmits p.1 then r.filter_chain p.2 else Value.invalid) := by
  induction elems generalizing n with
  | nil => rfl
  | cons v rest ih =>
    by_cases h : r.seqAdmits n <;>
      simp [iterSeqFrom, h, ih, List.enumFrom]

theorem iterSeqFrom_snd (r : FilterRepeater) (n : Nat) (elems : List Value) :
    (r.iterSeqFrom n elems).2 =
      (List.enumFrom n elems).filterMap (fun p =>
        if r.seqAdmits p.1 then Option.none
        else some ⟨Reason.unexpected, p.2,
          some (Key.str (unicodify_key (Key.int (Int.ofNat p.1))))⟩) := by
  induction elems generalizing n with
  | nil => rfl
  | cons v rest ih =>
    by_cases h : r.seqAdmits n <;>
      simp [iterSeqFrom, h, ih, List.enumFrom, List.filterMap_cons]

theorem iterSeqFrom_length (r : FilterRepeater) (elems : List Value) :
    (r.iterSeqFrom 0 elems).1.length = elems.length := by
  rw [iterSeqFrom_fst]
  simp [List.enumFrom_length]

end FilterRepeater

theorem Key.mem_iff (k : Key) (s : List Key) : Key.mem k s = true ↔ k ∈ s := by
  simp [Key.mem]

theorem lookupKey_cons (q : Key × Value) (l : List (Key × Value)) (k : Key) :
    lookupKey (q :: l) k = if q.1 = k then some q.2 else lookupKey l k := rfl

namespace FilterMapper

theorem iterDeclared_cons (m : FilterMapper) (input : List (Key × Value))
    (k : Key) (c : Value → Value) (rest : List (Key × (Value → Value))) :
    m.iterDeclared input ((k, c) :: rest) =
      ((m.processKey input k c).1 :: (m.iterDeclared input rest).1,
        (m.processKey input k c).2 ++ (m.iterDeclared input rest).2) := rfl

theorem iterExtra_cons (m : FilterMapper) (input : List (Key × Value))
    (k : Key) (rest : List Key) :
    m.iterExtra input (k :: rest) =
      if m.extra_key_allowed k then
        ((k, (lookupKey input k).getD Value.none) :: (m.iterExtra input rest).1,
          (m.iterExtra input rest).2)
      else
        ((m.iterExtra input rest).1,
          ⟨Reason.unexpected, (lookupKey input k).getD Value.none,
            some (Key.str (unicodify_key k))⟩ :: (m.iterExtra input rest).2) := by
  by_cases h : m.extra_key_allowed k <;> simp [iterExtra, h]

theorem iter_fst (m : FilterMapper) (input : List (Key × Value)) :
    (m.iter input).1 =
      (m.iterDeclared input m.filters).1 ++ (m.iterExtra input (m.extraKeys input)).1 := rfl

theorem iter_snd (m : FilterMapper) (input : List (Key × Value)) :
    (m.iter input).2 =
      (m.iterDeclared input m.filters).2 ++ (m.iterExtra input (m.extraKeys input)).2 := rfl

theorem processKey_fst (m : FilterMapper) (input : List (Key × Value))
    (k : Key) (c : Value → Value) : (m.processKey input k c).1.1 = k := by
  unfold processKey
  cases lookupKey input k with
  | some v => rfl
  | none => by_cases h : m.missing_key_allowed k <;> simp [h]

theorem processKey_snd_of_allowed (m : FilterMapper) (input : List (Key × Value))
    (k : Key) (c : Value → Value) (h : m.missing_key_allowed k = true) :
    (m.processKey input k c).2 = [] := by
  unfold processKey
  cases lookupKey input k with
  | some v => rfl
  | none => simp [h]

theorem processKey_of_missing (m : FilterMapper) (input : List (Key × Value))
    (k : Key) (c : Value → Value) (h1 : lookupKey input k = Option.none)
    (h2 : m.missing_key_allowed k = false) :
    m.processKey input k c =
      ((k, Value.invalid), [⟨Reason.missing, Value.none, some k⟩]) := by
  unfold processKey
  rw [h1]
  simp [h2]

theorem processKey_of_absent_allowed (m : FilterMapper) (input : List (Key × Value))
    (k : Key) (c : Value → Value) (h1 : lookupKey input k = Option.none)
    (h2 : m.missing_key_allowed k = true) :
    m.processKey input k c = ((k, c Value.none), []) := by
  unfold processKey
  rw [h1]
  simp [h2]

theorem processKey_snd_cases (m : FilterMapper) (input : List (Key × Value))
    (k : Key) (c : Value → Value) :
    (m.processKey input k c).2 = [] ∨
      (m.processKey input k c).2 = [⟨Reason.missing, Value.none, some k⟩] := by
  unfold processKey
  cases lookupKey input k with
  | some v => exact Or.inl rfl
  | none => by_cases h : m.missing_key_allowed k <;> simp [h]

theorem iterDeclared_keys (m : FilterMapper) (input : List (Key × Value))
    (fs : List (Key × (Value → Value))) :
    (m.iterDeclared input fs).1.map Prod.fst = fs.map Prod.fst := by
  induction fs with
  | nil => rfl
  | cons p rest ih =>
    obtain ⟨k, c⟩ := p
    rw [iterDeclared_cons]
    simp [ih, processKey_fst]

theorem iterDeclared_lookup (m : FilterMapper) (input : List (Key × Value))
    (fs : List (Key × (Value → Value))) (k : Key) (c : Value → Value)
    (hnd : (fs.map Prod.fst).Nodup) (hmem : (k, c) ∈ fs) :
    lookupKey (m.iterDeclared input fs).1 k = some (m.processKey input k c).1.2 := by
  induction fs with
  | nil => cases hmem
  | cons p rest ih =>
    obtain ⟨a, b⟩ := p
    rw [iterDeclared_cons, lookupKey_cons]
    rcases List.mem_cons.mp hmem with heq | htail
    · cases heq
      rw [if_pos (processKey_fst m input k c)]
    · have hk : k ∈ rest.map Prod.fst :=
        List.mem_map.mpr ⟨(k, c), htail, rfl⟩
      have hne : a ≠ k := by
        intro h
        exact (List.nodup_cons.mp hnd).1 (h ▸ hk)
      rw [processKey_fst, if_neg hne]
      exact ih (List.nodup_cons.mp hnd).2 htail

theorem iterDeclared_count_zero_of_not_mem (m : FilterMapper)
    (input : List (Key × Value)) (fs : List (Key × (Value → Value))) (k : Key)
    (h : k ∉ fs.map Prod.fst) :
    countErr (m.iterDeclared input fs).2 Reason.missing (some k) = 0 := by
  induction fs with
  | nil => rfl
  | cons p rest ih =>
    obtain ⟨a, b⟩ := p
    rw [iterDeclared_cons]
    simp only [List.map_cons, List.mem_cons, not_or] at h
    rw [countErr_append, ih h.2, Nat.add_zero]
    rcases processKey_snd_cases m input a b with hc | hc
    · rw [hc]; rfl
    · rw [hc, countErr_cons, countErr_nil]
      have hne : ¬ a = k := fun hh => h.1 hh.symm
      simp [hne]

theorem iterDeclared_count_zero_of_allowed (m : FilterMapper)
    (input : List (Key × Value)) (fs : List (Key × (Value → Value))) (k : Key)
    (hall : m.missing_key_allowed k = true) :
    countErr (m.iterDeclared input fs).2 Reason.missing (some k) = 0 := by
  induction fs with
  | nil => rfl
  | cons p rest ih =>
    obtain ⟨a, b⟩ := p
    rw [iterDeclared_cons, countErr_append, ih, Nat.add_zero]
    by_cases hak : a = k
    · subst hak
      rw [processKey_snd_of_allowed m input a b hall]
      rfl
    · rcases processKey_snd_cases m input a b with hc | hc
      · rw [hc]; rfl
      · rw [hc, countErr_cons, countErr_nil]
        simp [hak]

theorem iterDeclared_count_one (m : FilterMapper) (input : List (Key × Value))
    (fs : List (Key × (Value → Value))) (k : Key)
    (hnd : (fs.map Prod.fst).Nodup) (hmem : k ∈ fs.map Prod.fst)
    (habs : lookupKey input k = Option.none)
    (hdis : m.missing_key_allowed k = false) :
    countErr (m.iterDeclared input fs).2 Reason.missing (some k) = 1 := by
  induction fs with
  | nil => cases hmem
  | cons p rest ih =>
    obtain ⟨a, b⟩ := p
    rw [iterDeclared_cons, countErr_append]
    by_cases hak : a = k
    · subst hak
      rw [processKey_of_missing m input a b habs hdis]
      rw [iterDeclared_count_zero_of_not_mem m input rest a
        (List.nodup_cons.mp hnd).1]
      rw [countErr_cons, countErr_nil]
      simp
    · rcases (by simpa using hmem : k = a ∨ ∃ x, (k, x) ∈ rest) with h | ⟨x, hx⟩
      · exact absurd h.symm hak
      · rw [ih (List.nodup_cons.mp hnd).2 (List.mem_map.mpr ⟨(k, x), hx, rfl⟩)]
        rcases processKey_snd_cases m input a b with hc | hc
        · rw [hc]; rfl
        · rw [hc, countErr_cons, countErr_nil]
          simp [hak]

theorem iterDeclared_count_unexpected (m : FilterMapper)
    (input : List (Key × Value)) (fs : List (Key × (Value → Value)))
    (sk : Option Key) :
    countErr (m.iterDeclared input fs).2 Reason.unexpected sk = 0 := by
  induction fs with
  | nil => rfl
  | cons p rest ih =>
    obtain ⟨a, b⟩ := p
    rw [iterDeclared_cons, countErr_append, ih, Nat.add_zero]
    rcases processKey_snd_cases m input a b with hc | hc
    · rw [hc]; rfl
    · rw [hc, countErr_cons, countErr_nil]
      simp

theorem iterDeclared_missing_mem (m : FilterMapper) (input : List (Key × Value))
    (fs : List (Key × (Value → Value))) (k : Key)
    (hmem : k ∈ fs.map Prod.fst) (habs : lookupKey input k = Option.none)
    (hdis : m.missing_key_allowed k = false) :
    (⟨Reason.missing, Value.none, some k⟩ : RecordedError) ∈
      (m.iterDeclared input fs).2 := by
  induction fs with
  | nil => cases hmem
  | cons p rest ih =>
    obtain ⟨a, b⟩ := p
    rw [iterDeclared_cons]
    by_cases hak : a = k
    · subst hak
      rw [processKey_of_missing m input a b habs hdis]
      exact List.mem_append_left _ (List.mem_singleton.mpr rfl)
    · rcases (by simpa using hmem : k = a ∨ ∃ x, (k, x) ∈ rest) with h | ⟨x, hx⟩
      · exact absurd h.symm hak
      · exact List.mem_append_right _ (ih (List.mem_map.mpr ⟨(k, x), hx, rfl⟩))

theorem iterExtra_keys (m : FilterMapper) (input : List (Key × Value))
    (ks : List Key) :
    (m.iterExtra input ks).1.map Prod.fst =
      ks.filter (fun k => m.extra_key_allowed k) := by
  induction ks with
  | nil => rfl
  | cons k rest ih =>
    rw [iterExtra_cons]
    by_cases h : m.extra_key_allowed k <;> simp [h, ih]

theorem iterExtra_count_missing (m : FilterMapper) (input : List (Key × Value))
    (ks : List Key) (sk : Option Key) :
    countErr (m.iterExtra input ks).2 Reason.missing sk = 0 := by
  induction ks with
  | nil => rfl
  | cons k rest ih =>
    rw [iterExtra_cons]
    by_cases h : m.extra_key_allowed k
    · simpa [h] using ih
    · rw [if_neg h]
      rw [countErr_cons, ih]
      simp

theorem iterExtra_count_zero_of_not_mem (m : FilterMapper)
    (input : List (Key × Value)) (ks : List Key) (k : Key)
    (hcol : ∀ k2 ∈ ks, unicodify_key k2 = unicodify_key k → k2 = k)
    (hnm : k ∉ ks) :
    countErr (m.iterExtra input ks).2 Reason.unexpected
      (some (Key.str (unicodify_key k))) = 0 := by
  induction ks with
  | nil => rfl
  | cons a rest ih =>
    have hnm' : k ∉ rest := fun h => hnm (List.mem_cons_of_mem a h)
    have hcol' : ∀ k2 ∈ rest, unicodify_key k2 = unicodify_key k → k2 = k :=
      fun k2 h2 => hcol k2 (List.mem_cons_of_mem a h2)
    rw [iterExtra_cons]
    by_cases h : m.extra_key_allowed a
    · rw [if_pos h]
      exact ih hcol' hnm'
    · simp only [h, Bool.false_eq_true, if_false]
      rw [countErr_cons, ih hcol' hnm']
      have hne : unicodify_key a ≠ unicodify_key k := by
        intro he
        rw [← hcol a (List.mem_cons_self a rest) he] at hnm
        exact hnm (List.mem_cons_self a rest)
      simp [hne]

theorem iterExtra_count_one (m : FilterMapper) (input : List (Key × Value))
    (ks : List Key) (k : Key)
    (hcol : ∀ k2 ∈ ks, unicodify_key k2 = unicodify_key k → k2 = k)
    (hnd : ks.Nodup) (hmem : k ∈ ks)
    (hrej : m.extra_key_allowed k = false) :
    countErr (m.iterExtra input ks).2 Reason.unexpected
      (some (Key.str (unicodify_key k))) = 1 := by
  induction ks with
  | nil => cases hmem
  | cons a rest ih =>
    have hcol' : ∀ k2 ∈ rest, unicodify_key k2 = unicodify_key k → k2 = k :=
      fun k2 h2 => hcol k2 (List.mem_cons_of_mem a h2)
    rw [iterExtra_cons]
    by_cases hak : a = k
    · subst hak
      rw [hrej]
      simp only [Bool.false_eq_true, if_false]
      rw [countErr_cons,
        iterExtra_count_zero_of_not_mem m input rest a hcol'
          (List.nodup_cons.mp hnd).1]
      simp
    · have hmem' : k ∈ rest := by
        rcases List.mem_cons.mp hmem with h | h
        · exact absurd h.symm hak
        · exact h
      by_cases h : m.extra_key_allowed a
      · simpa [h] using ih hcol' (List.nodup_cons.mp hnd).2 hmem'
      · simp only [h, Bool.false_eq_true, if_false]
        rw [countErr_cons, ih hcol' (List.nodup_cons.mp hnd).2 hmem']
        have hne : unicodify_key a ≠ unicodify_key k := by
          intro he
          exact hak (hcol a (List.mem_cons_self a rest) he)
        simp [hne]

theorem iterExtra_unexpected_mem (m : FilterMapper) (input : List (Key × Value))
    (ks : List Key) (k : Key) (hmem : k ∈ ks)
    (hrej : m.extra_key_allowed k = false) :
    (⟨Reason.unexpected, (lookupKey input k).getD Value.none,
        some (Key.str (unicodify_key k))⟩ : RecordedError) ∈
      (m.iterExtra input ks).2 := by
  induction ks with
  | nil => cases hmem
  | cons a rest ih =>
    rw [iterExtra_cons]
    by_cases hak : a = k
    · subst hak
      rw [hrej]
      simp only [Bool.false_eq_true, if_false]
      exact List.mem_cons_self _ _
    · have hmem' : k ∈ rest := by
        rcases List.mem_cons.mp hmem with h | h
        · exact absurd h.symm hak
        · exact h
      by_cases h : m.extra_key_allowed a
      · simpa [h] using ih hmem'
      · simp only [h, Bool.false_eq_true, if_false]
        exact List.mem_cons_of_mem _ (ih hmem')

theorem iterExtra_lookup_allowed (m : FilterMapper) (input : List (Key × Value))
    (ks : List Key) (k : Key) (hmem : k ∈ ks)
    (hall : m.extra_key_allowed k = true) :
    lookupKey (m.iterExtra input ks).1 k =
      some ((lookupKey input k).getD Value.none) := by
  induction ks with
  | nil => cases hmem
  | cons a rest ih =>
    rw [iterExtra_cons]
    by_cases hak : a = k
    · subst hak
      rw [hall]
      simp [lookupKey_cons]
    · have hmem' : k ∈ rest := by
        rcases List.mem_cons.mp hmem with h | h
        · exact absurd h.symm hak
        · exact h
      by_cases h : m.extra_key_allowed a
      · simp only [h, if_true]
        rw [lookupKey_cons, if_neg hak]
        exact ih hmem'
      · simp only [h, Bool.false_eq_true, if_false]
        exact ih hmem'

theorem iterExtra_lookup_rejected (m : FilterMapper) (input : List (Key × Value))
    (ks : List Key) (k : Key) (hrej : m.extra_key_allowed k = false) :
    lookupKey (m.iterExtra input ks).1 k = Option.none := by
  induction ks with
  | nil => rfl
  | cons a rest ih =>
    rw [iterExtra_cons]
    by_cases h : m.extra_key_allowed a
    · have hak : a ≠ k := by
        intro hh
        rw [hh, hrej] at h
        simp at h
      simp only [h, if_true]
      rw [lookupKey_cons, if_neg hak]
      exact ih
    · simp only [h, Bool.false_eq_true, if_false]
      exact ih

theorem extraKeys_mem (m : FilterMapper) (input : List (Key × Value)) (k : Key)
    (hin : k ∈ input.map Prod.fst) (hnot : Key.mem k m.schemaKeys = false) :
    k ∈ m.extraKeys input := by
  simp [extraKeys, List.mem_filter, hin, hnot]

theorem extraKeys_subset (m : FilterMapper) (input : List (Key × Value)) (k : Key)
    (h : k ∈ m.extraKeys input) : k ∈ input.map Prod.fst :=
  (List.mem_filter.mp h).1

theorem extraKeys_nodup (m : FilterMapper) (input : List (Key × Value))
    (h : (input.map Prod.fst).Nodup) : (m.extraKeys input).Nodup :=
  h.filter _

theorem iterDeclared_length (m : FilterMapper) (input : List (Key × Value))
    (fs : List (Key × (Value → Value))) :
    (m.iterDeclared input fs).1.length = fs.length := by
  have h := congrArg List.length (iterDeclared_keys m input fs)
  simpa using h

theorem iter_drop_declared (m : FilterMapper) (input : List (Key × Value)) :
    (m.iter input).1.drop m.filters.length =
      (m.iterExtra input (m.extraKeys input)).1 := by
  rw [iter_fst, ← iterDeclared_length m input m.filters, List.drop_left]

end FilterMapper

/-! ### The claims -/

/-- C1: For every `FilterMapper` and every mapping-shaped input, the keys
of the output mapping are exactly the schema (`filter_map`) keys in
declared order followed by the admitted extra keys (enumerated here in
the embedding's fixed order for the source's unordered set difference);
in particular every schema-declared key appears in the output even when
its value is missing from the input, and admitted extra keys come
strictly after all declared keys. -/
theorem FilterMapper.claim_schema_key_order (m : FilterMapper)
    (input : List (Key × Value)) :
    (m.iter input).1.map Prod.fst =
      m.schemaKeys ++
        (m.extraKeys input).filter (fun k => m.extra_key_allowed k) := by
  rw [iter_fst, List.map_append, iterDeclared_keys, iterExtra_keys]
  rfl

/-- C2: For every `FilterMapper` and mapping-shaped input, a
schema-declared key that is absent from the input and whose omission the
missing-key policy does not permit produces exactly one MISSING_KEY
(`missing`) error tagged with that key, and the output still binds that
key to the invalid-value placeholder.  (The schema is a Python dict, so
its keys are distinct — hypothesis `hnd`.) -/
theorem FilterMapper.claim_missing_key_rejected (m : FilterMapper)
    (input : List (Key × Value)) (k : Key)
    (hnd : m.schemaKeys.Nodup) (hk : k ∈ m.schemaKeys)
    (habs : lookupKey input k = Option.none)
    (hdis : m.missing_key_allowed k = false) :
    lookupKey (m.iter input).1 k = some Value.invalid ∧
      countErr (m.iter input).2 Reason.missing (some k) = 1 := by
  constructor
  · obtain ⟨p, hp, hfst⟩ := List.mem_map.mp hk
    obtain ⟨a, c⟩ := p
    cases hfst
    have h2 : lookupKey (m.iterDeclared input m.filters).1 a =
        some Value.invalid := by
      rw [iterDeclared_lookup m input m.filters a c hnd hp,
        processKey_of_missing m input a c habs hdis]
    rw [iter_fst, lookupKey_append, h2]
  · rw [iter_snd, countErr_append,
      iterDeclared_count_one m input m.filters k hnd hk habs hdis,
      iterExtra_count_missing]

/-- Witness for C2 at the spec's concrete instance: schema
`{a: <identity>}`, missing keys disallowed, input `{}`. -/
theorem FilterMapper.claim_missing_key_rejected_witness :
    lookupKey (mapperMissingDisallow.iter []).1 (Key.str "a") =
        some Value.invalid ∧
      countErr (mapperMissingDisallow.iter []).2 Reason.missing
        (some (Key.str "a")) = 1 :=
  claim_missing_key_rejected mapperMissingDisallow [] (Key.str "a")
    (by decide) (by decide) rfl (by decide)

/-- C3: For every `FilterMapper` and mapping-shaped input, a
schema-declared key that is absent from the input and whose omission the
missing-key policy permits has its filter chain applied to null, the pair
(key, chain-of-null) is in the output, and no MISSING_KEY error is
recorded for that key. -/
theorem FilterMapper.claim_missing_key_substituted (m : FilterMapper)
    (input : List (Key × Value)) (k : Key) (c : Value → Value)
    (hnd : m.schemaKeys.Nodup) (hc : (k, c) ∈ m.filters)
    (habs : lookupKey input k = Option.none)
    (hall : m.missing_key_allowed k = true) :
    lookupKey (m.iter input).1 k = some (c Value.none) ∧
      countErr (m.iter input).2 Reason.missing (some k) = 0 := by
  constructor
  · have h2 : lookupKey (m.iterDeclared input m.filters).1 k =
        some (c Value.none) := by
      rw [iterDeclared_lookup m input m.filters k c hnd hc,
        processKey_of_absent_allowed m input k c habs hall]
    rw [iter_fst, lookupKey_append, h2]
  · rw [iter_snd, countErr_append,
      iterDeclared_count_zero_of_allowed m input m.filters k hall,
      iterExtra_count_missing]

/-- Witness for C3 at the spec's concrete instance: schema
`{a: <identity>}`, missing keys allowed, input `{}` gives output
`{a: None}` with zero errors. -/
theorem FilterMapper.claim_missing_key_substituted_witness :
    lookupKey (mapperMissingAllow.iter []).1 (Key.str "a") = some Value.none ∧
      countErr (mapperMissingAllow.iter []).2 Reason.missing
        (some (Key.str "a")) = 0 ∧
      mapperMissingAllow.iter [] = ([(Key.str "a", Value.none)], []) := by
  have h := claim_missing_key_substituted mapperMissingAllow [] (Key.str "a")
    idChain (by decide) (List.mem_cons_self _ _) rfl (by decide)
  exact ⟨h.1, h.2, rfl⟩

/-- C4: For every `FilterMapper` and mapping-shaped input (a Python dict,
so its keys are distinct — hypothesis `hnd`), an input key not declared
in the schema is processed after all declared keys; if the extra-key
policy permits it, its value passes through unchanged under the same
key, and otherwise the key is omitted from the output entirely and
exactly one UNEXPECTED_KEY (`unexpected`) error tagged with the
stringified key is recorded (the "exactly one" count is stated under the
side condition that no other input key stringifies to the same path
segment, which Python key distinctness does not by itself guarantee). -/
theorem FilterMapper.claim_extra_key_handling (m : FilterMapper)
    (input : List (Key × Value)) (k : Key)
    (hnd : (input.map Prod.fst).Nodup)
    (hin : k ∈ input.map Prod.fst)
    (hnot : Key.mem k m.schemaKeys = false) :
    (m.extra_key_allowed k = true →
        lookupKey (m.iter input).1 k = lookupKey input k ∧
          ∃ p ∈ (m.iter input).1.drop m.filters.length, p.1 = k) ∧
      (m.extra_key_allowed k = false →
        lookupKey (m.iter input).1 k = Option.none ∧
          ((∀ k2 ∈ input.map Prod.fst,
              unicodify_key k2 = unicodify_key k → k2 = k) →
            countErr (m.iter input).2 Reason.unexpected
              (some (Key.str (unicodify_key k))) = 1)) := by
  have hnot2 : k ∉ m.filters.map Prod.fst := by
    intro h
    rw [(Key.mem_iff k m.schemaKeys).mpr h] at hnot
    cases hnot
  have hmemE : k ∈ m.extraKeys input := extraKeys_mem m input k hin hnot
  have hlook1 : lookupKey (m.iterDeclared input m.filters).1 k =
      Option.none := by
    apply (lookupKey_eq_none _ k).mpr
    rw [iterDeclared_keys]
    exact hnot2
  have h3 : lookupKey (m.iter input).1 k =
      lookupKey (m.iterExtra input (m.extraKeys input)).1 k := by
    rw [iter_fst, lookupKey_append, hlook1]
  constructor
  · intro hall
    constructor
    · obtain ⟨v, hv⟩ := lookupKey_isSome_of_mem input k hin
      rw [h3, iterExtra_lookup_allowed m input (m.extraKeys input) k hmemE hall,
        hv]
      rfl
    · rw [iter_drop_declared]
      have hkeys : k ∈ (m.iterExtra input (m.extraKeys input)).1.map Prod.fst := by
        rw [iterExtra_keys]
        exact List.mem_filter.mpr ⟨hmemE, hall⟩
      obtain ⟨p, hp, hfst⟩ := List.mem_map.mp hkeys
      exact ⟨p, hp, hfst⟩
  · intro hrej
    constructor
    · rw [h3, iterExtra_lookup_rejected m input (m.extraKeys input) k hrej]
    · intro hcol
      have hcolE : ∀ k2 ∈ m.extraKeys input,
          unicodify_key k2 = unicodify_key k → k2 = k :=
        fun k2 h2 => hcol k2 (extraKeys_subset m input k2 h2)
      rw [iter_snd, countErr_append, iterDeclared_count_unexpected,
        iterExtra_count_one m input (m.extraKeys input) k hcolE
          (extraKeys_nodup m input hnd) hmemE hrej]

/-- Witness for C4 at the spec's concrete instance: schema `{a: <id>}`,
extra keys disallowed, input `{a: 1, b: 2}` gives an output without key
`b` (and with `a` passed through) plus one UNEXPECTED_KEY error tagged
`"b"`. -/
theorem FilterMapper.claim_extra_key_handling_witness :
    lookupKey (mapperExtraDisallow.iter inputAB).1 (Key.str "b") =
        Option.none ∧
      countErr (mapperExtraDisallow.iter inputAB).2 Reason.unexpected
        (some (Key.str "b")) = 1 ∧
      lookupKey (mapperExtraDisallow.iter inputAB).1 (Key.str "a") =
        some (Value.int 1) := by
  have h := claim_extra_key_handling mapperExtraDisallow inputAB (Key.str "b")
    (by decide) (by decide) (by decide)
  have h2 := h.2 (by decide)
  exact ⟨h2.1, h2.2 (by decide), rfl⟩

namespace FilterRepeater

theorem iterSeqFrom_all_admitted (r : FilterRepeater) (n : Nat)
    (elems : List Value)
    (h : ∀ i, n ≤ i → i < n + elems.length → r.seqAdmits i = true) :
    r.iterSeqFrom n elems = (elems.map r.filter_chain, []) := by
  induction elems generalizing n with
  | nil => rfl
  | cons v rest ih =>
    have hn : r.seqAdmits n = true := h n (Nat.le_refl n) (by simp)
    have ih2 := ih (n + 1) (fun i h1 h2 => h i (by omega)
      (by simp only [List.length_cons]; omega))
    simp [iterSeqFrom, hn, ih2]

theorem repeaterEmpty_iterMapping (r : FilterRepeater)
    (h : r.restrict_keys = some []) (entries : List (Key × Value)) :
    r.iterMapping entries =
      ([], entries.map (fun p =>
        ⟨Reason.unexpected, p.2, some (Key.str (unicodify_key p.1))⟩)) := by
  have hadm : ∀ k, r.admits k = false := by
    intro k
    simp [admits, h, Key.mem]
  induction entries with
  | nil => rfl
  | cons p rest ih =>
    obtain ⟨k, v⟩ := p
    simp [iterMapping, hadm k, ih]

theorem repeaterEmpty_iterSeqFrom (r : FilterRepeater)
    (h : r.restrict_keys = some []) (n : Nat) (elems : List Value) :
    r.iterSeqFrom n elems =
      (List.replicate elems.length Value.invalid,
        (List.enumFrom n elems).map (fun p =>
          ⟨Reason.unexpected, p.2,
            some (Key.str (unicodify_key (Key.int (Int.ofNat p.1))))⟩)) := by
  have hadm : ∀ i, r.seqAdmits i = false := by
    intro i
    simp [seqAdmits, admits, h, Key.mem]
  induction elems generalizing n with
  | nil => rfl
  | cons v rest ih =>
    simp [iterSeqFrom, hadm n, ih, List.enumFrom, List.replicate]

/-- C5: For every `FilterRepeater` applied to a (non-mapping) sequence
input, the output is a list with exactly one element per input element
in input order: an element at an index the restriction admits becomes
the chain's result on it, and an element at a restricted-out index
becomes the invalid-value placeholder with one `unexpected` error tagged
with the stringified index (the recorded errors are exactly those of the
restricted-out indices, in order); hence with no restricted elements the
output is the chain mapped over the input in input order. -/
theorem claim_sequence_elements (r : FilterRepeater) (elems : List Value) :
    (r.iterSeqFrom 0 elems).1.length = elems.length ∧
      (r.iterSeqFrom 0 elems).1 = elems.enum.map
        (fun p => if r.seqAdmits p.1 then r.filter_chain p.2
          else Value.invalid) ∧
      (r.iterSeqFrom 0 elems).2 = elems.enum.filterMap
        (fun p => if r.seqAdmits p.1 then Option.none
          else some ⟨Reason.unexpected, p.2,
            some (Key.str (unicodify_key (Key.int (Int.ofNat p.1))))⟩) ∧
      ((∀ i, i < elems.length → r.seqAdmits i = true) →
        (r.iterSeqFrom 0 elems).1 = elems.map r.filter_chain ∧
          (r.iterSeqFrom 0 elems).2 = []) := by
  refine ⟨iterSeqFrom_length r elems, iterSeqFrom_fst r 0 elems,
    iterSeqFrom_snd r 0 elems, fun hall => ?_⟩
  have h := iterSeqFrom_all_admitted r 0 elems
    (fun i _ h2 => hall i (by omega))
  rw [h]
  exact ⟨rfl, rfl⟩

/-- Witness for C5 at the spec's concrete instance: restriction `{0}`,
input `[10, 20]` gives output length 2 (index 0 filtered, index 1 the
invalid-value placeholder) and one `unexpected` error tagged `"1"`. -/
theorem claim_sequence_elements_witness :
    (repeaterRestrict0.iterSeqFrom 0 [Value.int 10, Value.int 20]).1 =
        [Value.int 10, Value.invalid] ∧
      (repeaterRestrict0.iterSeqFrom 0 [Value.int 10, Value.int 20]).2 =
        [⟨Reason.unexpected, Value.int 20, some (Key.str "1")⟩] ∧
      (repeaterRestrict0.iterSeqFrom 0 [Value.int 10, Value.int 20]).1.length
        = 2 := by
  have h := claim_sequence_elements repeaterRestrict0
    [Value.int 10, Value.int 20]
  refine ⟨?_, ?_, h.1⟩
  · rw [h.2.1]
    rfl
  · rw [h.2.2.1]
    rfl

/-- C6: For every `FilterRepeater` applied to a mapping-shaped input,
each admitted key (restriction unset, or key a member of the set) yields
an output entry under the original key object with the chain applied to
its value, preserving relative order, and each non-admitted key yields
no output entry at all plus one `unexpected` error tagged with the
stringified key. -/
theorem claim_mapping_restriction (r : FilterRepeater)
    (entries : List (Key × Value)) :
    (r.iterMapping entries).1 = entries.filterMap
        (fun p => if r.admits p.1 then some (p.1, r.filter_chain p.2)
          else Option.none) ∧
      (r.iterMapping entries).2 = entries.filterMap
        (fun p => if r.admits p.1 then Option.none
          else some ⟨Reason.unexpected, p.2,
            some (Key.str (unicodify_key p.1))⟩) :=
  ⟨iterMapping_fst r entries, iterMapping_snd r entries⟩

/-- C7: A `FilterRepeater` constructed with an empty restriction set
rejects every key/index: a mapping input yields an output with zero
entries and one `unexpected` error per input entry, and a sequence input
yields an output of invalid-value placeholders only, again with one
`unexpected` error per element. -/
theorem claim_empty_restriction_rejects_all (r : FilterRepeater)
    (h : r.restrict_keys = some []) (entries : List (Key × Value))
    (elems : List Value) :
    (r.iterMapping entries).1 = [] ∧
      (r.iterMapping entries).2.length = entries.length ∧
      (∀ e ∈ (r.iterMapping entries).2, e.reason = Reason.unexpected) ∧
      (r.iterSeqFrom 0 elems).1 =
        List.replicate elems.length Value.invalid ∧
      (r.iterSeqFrom 0 elems).2.length = elems.length ∧
      (∀ e ∈ (r.iterSeqFrom 0 elems).2, e.reason = Reason.unexpected) := by
  have hm := repeaterEmpty_iterMapping r h entries
  have hs := repeaterEmpty_iterSeqFrom r h 0 elems
  rw [hm, hs]
  refine ⟨rfl, by simp, ?_, rfl, by simp [List.enumFrom_length], ?_⟩
  · intro e he
    obtain ⟨p, _, hp⟩ := List.mem_map.mp he
    rw [← hp]
  · intro e he
    obtain ⟨p, _, hp⟩ := List.mem_map.mp he
    rw [← hp]

/-- Witness for C7: the empty-restriction repeater on mapping input
`{x: 1}` and sequence input `[5]`. -/
theorem claim_empty_restriction_rejects_all_witness :
    (repeaterRestrictEmpty.iterMapping [(Key.str "x", Value.int 1)]).1 = [] ∧
      (repeaterRestrictEmpty.iterMapping
        [(Key.str "x", Value.int 1)]).2.length = 1 ∧
      (repeaterRestrictEmpty.iterSeqFrom 0 [Value.int 5]).1 =
        [Value.invalid] ∧
      (repeaterRestrictEmpty.iterSeqFrom 0 [Value.int 5]).2.length = 1 := by
  have h := claim_empty_restriction_rejects_all repeaterRestrictEmpty rfl
    [(Key.str "x", Value.int 1)] [Value.int 5]
  exact ⟨h.1, h.2.1, h.2.2.2.1, h.2.2.2.2.1⟩

end FilterRepeater

/-- C8, counterexample: the claim as stated quantifies over every
non-iterable input, but the null value is not iterable and a
`FilterRepeater` applied to null passes it through as a successful null
with no error recorded (the base filter contract never routes null into
the `Type(Iterable)` check), so no TYPE_MISMATCH error exists there. -/
theorem claim_type_mismatch_counterexample :
    ¬ (∀ (r : FilterRepeater) (v : Value), isIterable v = false →
        ∃ e ∈ (FilterRepeater.apply r v).2, e.reason = Reason.wrongType) := by
  intro h
  rcases h repeaterPlain Value.none rfl with ⟨e, he, _⟩
  cases he

/-- C8 as amended: for every NON-NULL non-iterable input to
`FilterRepeater.apply` and every non-null non-mapping input to
`FilterMapper.apply`, the application records one TYPE_MISMATCH error
against the current path and returns the null result (and, the
embedding being total, never raises). -/
theorem claim_type_mismatch_amended (r : FilterRepeater) (m : FilterMapper)
    (v : Value) (hnn : v ≠ Value.none) :
    (isIterable v = false →
        FilterRepeater.apply r v =
          (Value.none, [⟨Reason.wrongType, v, Option.none⟩])) ∧
      (isMappingValue v = false →
        FilterMapper.apply m v =
          (Value.none, [⟨Reason.wrongType, v, Option.none⟩])) := by
  cases v with
  | none => exact absurd rfl hnn
  | int n => exact ⟨fun _ => rfl, fun _ => rfl⟩
  | str s => exact ⟨fun h => Bool.noConfusion h, fun _ => rfl⟩
  | sequence es => exact ⟨fun h => Bool.noConfusion h, fun _ => rfl⟩
  | mapping es =>
    exact ⟨fun h => Bool.noConfusion h, fun h => Bool.noConfusion h⟩
  | invalid => exact ⟨fun _ => rfl, fun _ => rfl⟩

/-- Witness for the amended C8 at the scalar input `5`. -/
theorem claim_type_mismatch_amended_witness :
    FilterRepeater.apply repeaterPlain (Value.int 5) =
        (Value.none, [⟨Reason.wrongType, Value.int 5, Option.none⟩]) ∧
      FilterMapper.apply mapperNoExtra (Value.int 5) =
        (Value.none, [⟨Reason.wrongType, Value.int 5, Option.none⟩]) := by
  have h := claim_type_mismatch_amended repeaterPlain mapperNoExtra
    (Value.int 5) (fun hh => Value.noConfusion hh)
  exact ⟨h.1 rfl, h.2 rfl⟩

/-- C9: For every key, `FilterMapper`'s missing-key and extra-key
permission checks are total: a boolean-`True` policy permits the key,
and with a set policy whose membership test raises `TypeError` (an
unhashable key) the check answers "not permitted" instead of
propagating the exception. -/
theorem FilterMapper.claim_policy_checks_total (m : FilterMapper) (k : Key) :
    (m.allow_missing_keys = Policy.bool true →
        m.missing_key_allowed k = true) ∧
      (m.allow_extra_keys = Policy.bool true →
        m.extra_key_allowed k = true) ∧
      (∀ s, m.allow_missing_keys = Policy.keys s → Key.hashable k = false →
        m.missing_key_allowed k = false) ∧
      (∀ s, m.allow_extra_keys = Policy.keys s → Key.hashable k = false →
        m.extra_key_allowed k = false) := by
  refine ⟨fun h => ?_, fun h => ?_, fun s hs hk => ?_, fun s hs hk => ?_⟩
  · simp [missing_key_allowed, h]
  · simp [extra_key_allowed, h]
  · simp [missing_key_allowed, hs, Policy.memTry, hk]
  · simp [extra_key_allowed, hs, Policy.memTry, hk]

/-- Witness for C9 with set policies and the unhashable key `[]`, plus
the boolean-`True` case. -/
theorem FilterMapper.claim_policy_checks_total_witness :
    mapperSetPolicies.missing_key_allowed (Key.unhash "[]") = false ∧
      mapperSetPolicies.extra_key_allowed (Key.unhash "[]") = false ∧
      mapperMissingAllow.missing_key_allowed (Key.unhash "[]") = true := by
  have h1 := claim_policy_checks_total mapperSetPolicies (Key.unhash "[]")
  have h2 := claim_policy_checks_total mapperMissingAllow (Key.unhash "[]")
  exact ⟨h1.2.2.1 [Key.str "a"] rfl rfl, h1.2.2.2 [Key.str "a"] rfl rfl,
    h2.1 rfl⟩

/-- C10: In `FilterMapper`, a MISSING_KEY error for an absent required
schema key is tagged with the original key object, while an
UNEXPECTED_KEY error for a rejected extra key is tagged with the
stringified (`unicodify_key`) form; for the same non-string key the
two error kinds therefore tag different path segments. -/
theorem FilterMapper.claim_error_path_tags (m : FilterMapper)
    (input : List (Key × Value)) (m2 : FilterMapper)
    (input2 : List (Key × Value)) (k : Key)
    (hk : k ∈ m.schemaKeys) (habs : lookupKey input k = Option.none)
    (hdis : m.missing_key_allowed k = false)
    (hin2 : k ∈ input2.map Prod.fst)
    (hnot2 : Key.mem k m2.schemaKeys = false)
    (hrej2 : m2.extra_key_allowed k = false)
    (hstr : ∀ s, k ≠ Key.str s) :
    (∃ e ∈ (m.iter input).2,
        e.reason = Reason.missing ∧ e.subKey = some k) ∧
      (∃ e ∈ (m2.iter input2).2, e.reason = Reason.unexpected ∧
        e.subKey = some (Key.str (unicodify_key k))) ∧
      (some (Key.str (unicodify_key k)) : Option Key) ≠ some k := by
  refine ⟨?_, ?_, ?_⟩
  · have h := iterDeclared_missing_mem m input m.filters k hk habs hdis
    exact ⟨_, by rw [iter_snd]; exact List.mem_append_left _ h, rfl, rfl⟩
  · have hmemE : k ∈ m2.extraKeys input2 :=
      extraKeys_mem m2 input2 k hin2 hnot2
    have h := iterExtra_unexpected_mem m2 input2 (m2.extraKeys input2) k
      hmemE hrej2
    exact ⟨_, by rw [iter_snd]; exact List.mem_append_right _ h, rfl, rfl⟩
  · intro hcontr
    exact hstr (unicodify_key k) (Option.some.inj hcontr).symm

/-- Witness for C10 with the integer key `2`: the missing error of
`mapperIntSchema` on `{}` is tagged with the int key `2` itself, the
unexpected error of `mapperNoExtra` on `{2: 7}` is tagged with the
string `"2"`, and the two tags differ. -/
theorem FilterMapper.claim_error_path_tags_witness :
    (⟨Reason.missing, Value.none, some (Key.int 2)⟩ : RecordedError) ∈
        (mapperIntSchema.iter []).2 ∧
      (⟨Reason.unexpected, Value.int 7, some (Key.str "2")⟩ :
          RecordedError) ∈
        (mapperNoExtra.iter [(Key.int 2, Value.int 7)]).2 ∧
      (some (Key.str "2") : Option Key) ≠ some (Key.int 2) := by
  have h := claim_error_path_tags mapperIntSchema [] mapperNoExtra
    [(Key.int 2, Value.int 7)] (Key.int 2) (by decide) rfl (by decide)
    (by decide) rfl (by decide) (fun s hh => Key.noConfusion hh)
  exact ⟨List.mem_singleton.mpr rfl, List.mem_singleton.mpr rfl, h.2.2⟩

end Filters
